import Mathlib

/-!
Verification development for the budget-tracking application
(`src/budget_app.py`).  The worksheet contents returned by
`get_all_values()` are modelled as `List (List String)` (a list of rows of
cells, header row included); the records returned by `get_all_records()`
are modelled by zipping each data row with the header row (Python
`dict(zip(headers, row))`, later duplicate keys overwriting earlier ones).
Cell values are modelled as the strings shown in the sheet.  The calls to
`uuid.uuid4().hex` are modelled by an explicit generator `gen : Nat → String`
together with a counter threaded through the computation, one index per
call.  Python `int(float(s))` is modelled by an exact decimal parser
(sign, digit groups with underscores, optional fraction and exponent,
surrounding whitespace) followed by truncation toward zero; `"inf"`/`"nan"`
inputs are mapped to parse failure, which agrees with the behaviour of the
composite `int(float(s))` (the `int` call raises on them).  Fallible code
(the uncaught `int(float(...))` on the budget field) is modelled with
`Option`: `none` is a fatal, uncaught exception.
-/

namespace BudgetApp

/-! ### Python `str.strip` on character lists -/

/-- Python `str.strip()` on a character list: drop whitespace from both ends. -/
def pstrip (cs : List Char) : List Char :=
  ((cs.dropWhile Char.isWhitespace).reverse.dropWhile Char.isWhitespace).reverse

/-- Python `str.strip()` on strings, as used by `load_data_from_sheets`. -/
def strField (s : String) : String :=
  (pstrip s.toList).asString

/-! ### Python `float` literal parsing and `int(float(s))` -/

/-- Numeric value of a decimal digit character. -/
def digitVal (c : Char) : Nat := c.toNat - 48

/-- A valid Python digit group: `digit (["_"] digit)*` (nonempty, underscores
only between digits). -/
def digitsU : List Char → Bool
  | [] => false
  | [c] => c.isDigit
  | c :: c2 :: rest =>
    c.isDigit && (if c2 = '_' then digitsU rest else digitsU (c2 :: rest))

/-- Value of a digit group, ignoring the underscores. -/
def digitsVal (cs : List Char) : Nat :=
  cs.foldl (fun a c => if c = '_' then a else 10 * a + digitVal c) 0

/-- Number of actual digits in a digit group (underscores not counted). -/
def digitCount (cs : List Char) : Nat :=
  (cs.filter Char.isDigit).length

/-- Split a character list at the first `e`/`E` (exponent marker). -/
def splitAtExp : List Char → List Char × Option (List Char)
  | [] => ([], none)
  | c :: cs =>
    if c = 'e' ∨ c = 'E' then ([], some cs)
    else
      let p := splitAtExp cs
      (c :: p.1, p.2)

/-- Split a character list at the first `.` (decimal point). -/
def splitAtDot : List Char → List Char × Option (List Char)
  | [] => ([], none)
  | c :: cs =>
    if c = '.' then ([], some cs)
    else
      let p := splitAtDot cs
      (c :: p.1, p.2)

/-- Strip an optional leading sign; `true` means negative. -/
def parseSign : List Char → Bool × List Char
  | [] => (false, [])
  | c :: cs =>
    if c = '+' then (false, cs)
    else if c = '-' then (true, cs)
    else (false, c :: cs)

/-- Parse a Python `float` literal into
`(negative, integer digits value, fraction digits value, fraction digit
count, exponent)`: optional surrounding whitespace, optional sign, digit
groups around an optional point, optional signed exponent.  `none` when
`float(s)` would raise `ValueError`. -/
def parseDecParts? (s : String) : Option (Bool × Nat × Nat × Nat × Int) :=
  let cs := pstrip s.toList
  let sp := parseSign cs
  let me := splitAtExp sp.2
  let ifr := splitAtDot me.1
  let mantOk :=
    match ifr.2 with
    | none => digitsU ifr.1
    | some fp =>
      (ifr.1.isEmpty || digitsU ifr.1) && (fp.isEmpty || digitsU fp) &&
        !(ifr.1.isEmpty && fp.isEmpty)
  if mantOk then
    let fv := match ifr.2 with | none => 0 | some fp => digitsVal fp
    let k := match ifr.2 with | none => 0 | some fp => digitCount fp
    match me.2 with
    | none => some (sp.1, digitsVal ifr.1, fv, k, 0)
    | some ecs =>
      let esp := parseSign ecs
      if digitsU esp.2 then
        some (sp.1, digitsVal ifr.1, fv, k,
          (if esp.1 then -1 else 1) * (digitsVal esp.2 : Int))
      else none
  else none

/-- Python `int(float(s))`, idealized to exact decimal arithmetic: the
parsed value is `±(iv + fv / 10^k) · 10^e`, and `int` truncates toward
zero.  `none` models the raised `ValueError`. -/
def pythonIntFloat? (s : String) : Option Int :=
  (parseDecParts? s).map fun q =>
    match q with
    | (sign, iv, fv, k, e) =>
      let m : Int := (iv : Int) * (10 : Int) ^ k + (fv : Int)
      let sh : Int := e - (k : Int)
      let mag : Int :=
        if 0 ≤ sh then m * (10 : Int) ^ sh.toNat
        else m.tdiv ((10 : Int) ^ (-sh).toNat)
      if sign then -mag else mag

/-! ### Worksheets and records -/

/-- A worksheet row, as returned by `get_all_values()`. -/
abbrev Row := List String

/-- A worksheet's contents, header row included. -/
abbrev Table := List Row

/-- Pad a row with empty cells up to length `n` (grid cells that hold no
value read as the empty string). -/
def padTo (row : Row) (n : Nat) : Row :=
  row ++ List.replicate (n - row.length) ""

/-- One record of `get_all_records()`: the header row zipped with the
(padded) data row, i.e. Python `dict(zip(headers, row))`. -/
def zipRecord (headers row : Row) : List (String × String) :=
  headers.zip (padTo row headers.length)

/-- Dictionary lookup on a record; with duplicate headers the later pair
wins, as in a Python dict built from `zip`.  `none` models a missing key. -/
def recGet (r : List (String × String)) (k : String) : Option String :=
  ((r.filter fun p => p.1 = k).getLast?).map Prod.snd

/-- `ws.get_all_records()`: every data row below the header, as a record. -/
def get_all_records (vals : Table) : List (List (String × String)) :=
  match vals with
  | [] => []
  | h :: t => t.map (zipRecord h)

/-! ### Domain model -/

/-- An expense of the in-memory domain model. -/
structure Expense where
  id : String
  amount : Int
  note : String
  date : String
  deriving DecidableEq, Repr

/-- A category of the in-memory domain model. -/
structure Category where
  id : String
  budget : Int
  type : String
  expenses : List Expense
  deriving DecidableEq, Repr

/-- The domain mapping `cats`, modelled as an insertion-ordered association
list (a Python dict). -/
abbrev Cats := List (String × Category)

/-- Python dict lookup. -/
def dlookup (k : String) : Cats → Option Category
  | [] => none
  | p :: m => if p.1 = k then some p.2 else dlookup k m

/-- Python dict assignment `m[k] = v`: replace in place when the key
exists, append otherwise. -/
def dictInsert (k : String) (v : Category) : Cats → Cats
  | [] => [(k, v)]
  | p :: m => if p.1 = k then (k, v) :: m else p :: dictInsert k v m

/-- In-place update of the value under key `k`. -/
def dictModify (k : String) (f : Category → Category) (m : Cats) : Cats :=
  m.map fun p => if p.1 = k then (p.1, f p.2) else p

/-! ### The Domain Loader (`load_data_from_sheets`) -/

/-- Python `x or d` for an optional string field (`None` and `""` are
falsy). -/
def orElseStr (o : Option String) (d : String) : String :=
  match o with
  | some s => if s = "" then d else s
  | none => d

/-- The stripped `category` field of a record (the mapping key). -/
def catKeyOf (r : List (String × String)) : String :=
  strField ((recGet r "category").getD "")

/-- `r.get("id") or uuid.uuid4().hex`: keep a non-empty stored id, else
draw a fresh one from the generator (returning the advanced counter). -/
def idOrFresh (gen : Nat → String) (n : Nat) (r : List (String × String)) :
    String × Nat :=
  match recGet r "id" with
  | some s => if s = "" then (gen n, n + 1) else (s, n)
  | none => (gen n, n + 1)

/-- `int(float(r.get("budget", 0) or 0))` — the conversion failure is NOT
caught, so `none` models the propagating exception. -/
def budgetCoerce? (r : List (String × String)) : Option Int :=
  match recGet r "budget" with
  | none => some 0
  | some s => if s = "" then some 0 else pythonIntFloat? s

/-- `try: amount = int(float(r.get("amount", 0) or 0)) except: amount = 0`. -/
def amountCoerce (r : List (String × String)) : Int :=
  match recGet r "amount" with
  | none => 0
  | some s => if s = "" then 0 else (pythonIntFloat? s).getD 0

/-- `r.get("type") or "Monthly"`. -/
def typeOf (r : List (String × String)) : String :=
  orElseStr (recGet r "type") "Monthly"

/-- `r.get("note") or ""`. -/
def noteOf (r : List (String × String)) : String :=
  orElseStr (recGet r "note") ""

/-- `r.get("date") or ""`. -/
def dateOf (r : List (String × String)) : String :=
  orElseStr (recGet r "date") ""

/-- One iteration of the category loop of `load_data_from_sheets`:
skip blank names, back-fill the id, coerce the budget (uncaught failure →
`none`), default the type, and assign into the mapping. -/
def loadCatsStep (gen : Nat → String) (st : Cats × Nat)
    (r : List (String × String)) : Option (Cats × Nat) :=
  let name := catKeyOf r
  if name = "" then some st
  else
    let cn := idOrFresh gen st.2 r
    match budgetCoerce? r with
    | none => none
    | some budget =>
      some (dictInsert name ⟨cn.1, budget, typeOf r, []⟩ st.1, cn.2)

/-- The category loop of `load_data_from_sheets`. -/
def loadCats (gen : Nat → String) :
    List (List (String × String)) → Cats × Nat → Option (Cats × Nat)
  | [], st => some st
  | r :: rs, st =>
    match loadCatsStep gen st r with
    | none => none
    | some st1 => loadCats gen rs st1

/-- One iteration of the expense loop of `load_data_from_sheets`: skip
blank category names, back-fill the id, coerce the amount (failure
swallowed as 0), synthesize a placeholder category when the name is
absent, and append the expense. -/
def loadExpsStep (gen : Nat → String) (st : Cats × Nat)
    (r : List (String × String)) : Cats × Nat :=
  let cat := catKeyOf r
  if cat = "" then st
  else
    let en := idOrFresh gen st.2 r
    let e : Expense := ⟨en.1, amountCoerce r, noteOf r, dateOf r⟩
    let cn : Cats × Nat :=
      if (dlookup cat st.1).isSome then (st.1, en.2)
      else (dictInsert cat ⟨gen en.2, 0, "Monthly", []⟩ st.1, en.2 + 1)
    (dictModify cat (fun c => { c with expenses := c.expenses ++ [e] }) cn.1,
      cn.2)

/-- The expense loop of `load_data_from_sheets`. -/
def loadExps (gen : Nat → String) (rs : List (List (String × String)))
    (st : Cats × Nat) : Cats × Nat :=
  rs.foldl (loadExpsStep gen) st

/-- `load_data_from_sheets(cat_ws, exp_ws)`: build the domain mapping from
the two worksheets.  `none` models an uncaught exception (a bad `budget`
cell).  The `try/except` around each `get_all_records()` call concerns
remote-store failures, which are outside this model (reads always
succeed here). -/
def load_data_from_sheets (gen : Nat → String) (catVals expVals : Table) :
    Option Cats :=
  match loadCats gen (get_all_records catVals) ([], 0) with
  | none => none
  | some st => some (loadExps gen (get_all_records expVals) st).1

/-! ### Mutation operations -/

/-- Header row of the `categories` worksheet. -/
def stdCatHeaders : Row := ["id", "category", "budget", "type"]

/-- Header row of the `expenses` worksheet. -/
def stdExpHeaders : Row := ["id", "category", "amount", "note", "date"]

/-- `ensure_ws(sh, title, headers)`: `none` stands for a missing worksheet
(created with just the header row); for an existing one, a first row that
differs from the headers is deleted (the deletion of row 1 is a no-op on an
empty sheet, the raised error being swallowed) and the headers are inserted
as the new row 1. -/
def ensure_ws (existing : Option Table) (headers : Row) : Table :=
  match existing with
  | none => [headers]
  | some vals =>
    if vals.headD [] = headers then vals
    else headers :: vals.tail

/-- `append_category(cat_ws, name, budget, btype)`: append the row
`[cid, name, budget, btype]`.  `cid` stands for the freshly drawn
`uuid.uuid4().hex`; the integer budget is rendered by the sheet as its
decimal numeral. -/
def append_category (vals : Table) (cid name : String) (budget : Int)
    (btype : String) : Table :=
  vals ++ [[cid, name, toString budget, btype]]

/-- `append_expense(exp_ws, category, amount, note, date)`. -/
def append_expense (vals : Table) (eid category : String) (amount : Int)
    (note date : String) : Table :=
  vals ++ [[eid, category, toString amount, note, date]]

/-- The row test of `delete_category_and_its_expenses`:
`len(row) >= 2 and row[1] == category_name`. -/
def matchCatRow (name : String) (row : Row) : Bool :=
  decide (2 ≤ row.length) && (row.getD 1 "" == name)

/-- The collected 1-based indices (`enumerate(vals[1:], start=2)`) of the
matching rows, in ascending order. -/
def rowsToDeleteAux (name : String) : Nat → List Row → List Nat
  | _, [] => []
  | i, row :: rest =>
    if matchCatRow name row then i :: rowsToDeleteAux name (i + 1) rest
    else rowsToDeleteAux name (i + 1) rest

/-- `rows_to_delete` of one pass of `delete_category_and_its_expenses`. -/
def rowsToDelete (vals : Table) (name : String) : List Nat :=
  rowsToDeleteAux name 2 vals.tail

/-- One scan-and-reverse-delete pass of `delete_category_and_its_expenses`
over one worksheet: collect the matching 1-based row indices, then delete
them in reverse order (`ws.delete_rows(r)` removes the row at 1-based
index `r`). -/
def deleteCategoryPass (vals : Table) (name : String) : Table :=
  (rowsToDelete vals name).reverse.foldl
    (fun acc r => acc.eraseIdx (r - 1)) vals

/-- `delete_category_and_its_expenses(cat_ws, exp_ws, category_name)`:
the same pass over the categories table and then the expenses table
(in both, column 2 holds the category name). -/
def delete_category_and_its_expenses (catVals expVals : Table)
    (category_name : String) : Table × Table :=
  (deleteCategoryPass catVals category_name,
    deleteCategoryPass expVals category_name)

/-- The row test of `delete_expense_by_id` / `update_expense_amount`:
`len(row) >= 1 and row[0] == exp_id`. -/
def matchIdRow (exp_id : String) (row : Row) : Bool :=
  decide (1 ≤ row.length) && (row.getD 0 "" == exp_id)

/-- `ws.update_cell(i, col, v)` restricted to one row, 0-based column `k`:
the grid cell is written even when the stored row is shorter (absent grid
cells read as `""`). -/
def setCell (row : Row) (k : Nat) (v : String) : Row :=
  (padTo row (k + 1)).set k v

/-- Reading 0-based cell `k` of a row (absent grid cells read as `""`). -/
def getCell (row : Row) (k : Nat) : String :=
  row.getD k ""

/-- The writes done on the matched row by `update_expense_amount`:
column 3 (0-based 2) gets the new amount and, when a new note is supplied,
column 4 (0-based 3) gets the new note. -/
def updateMatchedRow (new_amount : String) (new_note : Option String)
    (row : Row) : Row :=
  let r1 := setCell row 2 new_amount
  match new_note with
  | some nn => setCell r1 3 nn
  | none => r1

/-- The scan of `update_expense_amount` over the data rows: the first row
whose id matches is updated and the scan stops (`return True`); no match
returns `False`. -/
def scanUpdate (exp_id new_amount : String) (new_note : Option String) :
    List Row → List Row × Bool
  | [] => ([], false)
  | row :: rest =>
    if matchIdRow exp_id row then
      (updateMatchedRow new_amount new_note row :: rest, true)
    else
      let p := scanUpdate exp_id new_amount new_note rest
      (row :: p.1, p.2)

/-- `update_expense_amount(exp_ws, exp_id, new_amount, new_note)`: scan
`vals[1:]` (the data rows) for the first id match; on a match overwrite the
amount cell and, when supplied, the note cell, returning `True`; otherwise
leave the sheet unchanged and return `False`.  `new_amount` is the cell
value written (the sheet renders the integer passed by the caller). -/
def update_expense_amount (vals : Table) (exp_id new_amount : String)
    (new_note : Option String) : Table × Bool :=
  match vals with
  | [] => ([], false)
  | h :: t =>
    let p := scanUpdate exp_id new_amount new_note t
    (h :: p.1, p.2)

/-! ### Specification-side definitions (stated from the spec's words, to be
compared with the code-level definitions above) -/

/-- Expected result of one delete pass, stated as a filter: the header row
is kept, the matching data rows are dropped, the rest keep their order. -/
def filterPass (vals : Table) (name : String) : Table :=
  match vals with
  | [] => []
  | h :: t => h :: t.filter (fun row => !matchCatRow name row)

/-- Truncation of a rational toward zero. -/
def ratTrunc (q : Rat) : Int :=
  if 0 ≤ q then ⌊q⌋ else -⌊-q⌋

/-- The exact rational value denoted by a decimal literal,
`±(iv + fv / 10^k) · 10^e`, or `none` when it is not a valid literal. -/
def decimalVal? (s : String) : Option Rat :=
  (parseDecParts? s).map fun q =>
    match q with
    | (sign, iv, fv, k, e) =>
      (if sign then -1 else 1) * ((iv : Rat) + (fv : Rat) / (10 : Rat) ^ k) *
        (10 : Rat) ^ (e : Int)

/-- The decimal digit characters of a natural number, most significant
first (the reference rendering against which `Nat.repr` is proved). -/
def natDigits (n : Nat) : List Char :=
  if h : n < 10 then [Nat.digitChar n]
  else natDigits (n / 10) ++ [Nat.digitChar (n % 10)]
  decreasing_by exact Nat.div_lt_self (by omega) (by omega)

/-- A concrete stand-in for the `uuid.uuid4().hex` supply, used to
instantiate theorems on concrete stores. -/
def mkGen (n : Nat) : String :=
  "fresh" ++ toString n

/-- The ten decimal digit characters. -/
def digitChars10 : List Char :=
  ['0', '1', '2', '3', '4', '5', '6', '7', '8', '9']

/-- The fields of an expense that come from its record alone (id excluded,
it may be freshly generated). -/
def expProj (e : Expense) : Int × String × String :=
  (e.amount, e.note, e.date)

/-- The expense list stored under a key, empty when the key is absent. -/
def expensesOf (k : String) (m : Cats) : List Expense :=
  (dlookup k m).elim [] Category.expenses

/-! ## Supporting lemmas -/

theorem rowsToDeleteAux_shift (name : String) :
    ∀ (t : List Row) (i k : Nat),
      rowsToDeleteAux name (i + k) t = (rowsToDeleteAux name i t).map (· + k) := by
  intro t
  induction t with
  | nil => intro i k; rfl
  | cons a rest ih =>
    intro i k
    have e : i + k + 1 = i + 1 + k := by omega
    by_cases h : matchCatRow name a
    · simp [rowsToDeleteAux, h, e, ih]
    · simp [rowsToDeleteAux, h, e, ih]

theorem fold_erase_map_shift (c : Nat) :
    ∀ (js : List Nat) (t : List Row),
      (js.map (· + (c + 1))).foldl (fun acc r => acc.eraseIdx (r - 1)) t
        = (js.map (· + c)).foldl (fun acc j => acc.eraseIdx j) t := by
  intro js
  induction js with
  | nil => intro t; rfl
  | cons j js ih =>
    intro t
    simp only [List.map_cons, List.foldl_cons]
    have : j + (c + 1) - 1 = j + c := by omega
    rw [this, ih]

theorem fold_erase_cons_map1 :
    ∀ (js : List Nat) (a : Row) (t : List Row),
      (js.map (· + 1)).foldl (fun acc j => acc.eraseIdx j) (a :: t)
        = a :: js.foldl (fun acc j => acc.eraseIdx j) t := by
  intro js
  induction js with
  | nil => intro a t; rfl
  | cons j js ih =>
    intro a t
    simp only [List.map_cons, List.foldl_cons]
    have h : (a :: t).eraseIdx (j + 1) = a :: t.eraseIdx j := rfl
    rw [h, ih]

theorem fold_erase_filter (name : String) :
    ∀ t : List Row,
      ((rowsToDeleteAux name 0 t).reverse).foldl (fun acc j => acc.eraseIdx j) t
        = t.filter (fun row => !matchCatRow name row) := by
  intro t
  induction t with
  | nil => rfl
  | cons a rest ih =>
    have hsh : rowsToDeleteAux name 1 rest
        = (rowsToDeleteAux name 0 rest).map (· + 1) := by
      have := rowsToDeleteAux_shift name rest 0 1
      simpa using this
    by_cases h : matchCatRow name a
    · have hu : rowsToDeleteAux name 0 (a :: rest)
          = 0 :: (rowsToDeleteAux name 0 rest).map (· + 1) := by
        simp [rowsToDeleteAux, h, hsh]
      rw [hu, List.reverse_cons, List.foldl_append,
        ← List.map_reverse, fold_erase_cons_map1, ih]
      simp [List.filter_cons, h]
    · have hu : rowsToDeleteAux name 0 (a :: rest)
          = (rowsToDeleteAux name 0 rest).map (· + 1) := by
        simp [rowsToDeleteAux, h, hsh]
      rw [hu, ← List.map_reverse, fold_erase_cons_map1, ih]
      simp [List.filter_cons, h]

theorem deleteCategoryPass_eq_filterPass (vals : Table) (name : String) :
    deleteCategoryPass vals name = filterPass vals name := by
  cases vals with
  | nil => rfl
  | cons h t =>
    show ((rowsToDeleteAux name 2 t).reverse).foldl
        (fun acc r => acc.eraseIdx (r - 1)) (h :: t)
      = h :: t.filter (fun row => !matchCatRow name row)
    have h2 : rowsToDeleteAux name 2 t
        = (rowsToDeleteAux name 0 t).map (· + 2) := by
      have := rowsToDeleteAux_shift name t 0 2
      simpa using this
    rw [h2, ← List.map_reverse, fold_erase_map_shift 1,
      fold_erase_cons_map1]
    rw [fold_erase_filter]

theorem getD_replicate_empty (n c : Nat) :
    (List.replicate n ("" : String)).getD c "" = "" := by
  induction n generalizing c with
  | zero => rfl
  | succ n ih =>
    cases c with
    | zero => rfl
    | succ c => simpa using ih c

theorem padTo_cons (a : String) (row : Row) (n : Nat) :
    padTo (a :: row) n = a :: padTo row (n - 1) := by
  simp only [padTo, List.length_cons, List.cons_append, List.cons.injEq,
    true_and]
  have e : n - (row.length + 1) = n - 1 - row.length := by omega
  rw [e]

theorem getCell_padTo (row : Row) (n c : Nat) :
    getCell (padTo row n) c = getCell row c := by
  induction row generalizing n c with
  | nil =>
    show (List.replicate (n - 0) ("" : String)).getD c "" = ([] : Row).getD c ""
    rw [getD_replicate_empty]
    cases c <;> rfl
  | cons a row ih =>
    rw [padTo_cons]
    cases c with
    | zero => rfl
    | succ c =>
      show (padTo row (n - 1)).getD c "" = row.getD c ""
      exact ih (n - 1) c

theorem padTo_length (row : Row) (n : Nat) :
    (padTo row n).length = max row.length n := by
  simp only [padTo, List.length_append, List.length_replicate]
  omega

theorem getD_set_self (v : String) :
    ∀ (l : Row) (k : Nat), k < l.length → (l.set k v).getD k "" = v := by
  intro l
  induction l with
  | nil => intro k hk; simp at hk
  | cons a l ih =>
    intro k hk
    cases k with
    | zero => rfl
    | succ k =>
      show (l.set k v).getD k "" = v
      exact ih k (by simpa using hk)

theorem getD_set_ne (v : String) :
    ∀ (l : Row) (k c : Nat), c ≠ k → (l.set k v).getD c "" = l.getD c "" := by
  intro l
  induction l with
  | nil => intro k c _; rfl
  | cons a l ih =>
    intro k c hne
    cases k with
    | zero =>
      cases c with
      | zero => exact absurd rfl hne
      | succ c => rfl
    | succ k =>
      cases c with
      | zero => rfl
      | succ c =>
        show (l.set k v).getD c "" = l.getD c ""
        exact ih k c (by omega)

theorem getCell_setCell_self (row : Row) (k : Nat) (v : String) :
    getCell (setCell row k v) k = v := by
  show ((padTo row (k + 1)).set k v).getD k "" = v
  apply getD_set_self
  rw [padTo_length]
  omega

theorem getCell_setCell_ne (row : Row) (k c : Nat) (v : String) (h : c ≠ k) :
    getCell (setCell row k v) c = getCell row c := by
  show ((padTo row (k + 1)).set k v).getD c "" = getCell row c
  rw [getD_set_ne v _ k c h]
  exact getCell_padTo row (k + 1) c

theorem getCell_update_other (new_amount : String) (new_note : Option String)
    (row : Row) (c : Nat) (h2 : c ≠ 2) (h3 : c ≠ 3) :
    getCell (updateMatchedRow new_amount new_note row) c = getCell row c := by
  cases new_note with
  | none => exact getCell_setCell_ne row 2 c new_amount h2
  | some nn =>
    show getCell (setCell (setCell row 2 new_amount) 3 nn) c = getCell row c
    rw [getCell_setCell_ne _ 3 c nn h3]
    exact getCell_setCell_ne row 2 c new_amount h2

theorem getCell_update_amount (new_amount : String) (new_note : Option String)
    (row : Row) :
    getCell (updateMatchedRow new_amount new_note row) 2 = new_amount := by
  cases new_note with
  | none => exact getCell_setCell_self row 2 new_amount
  | some nn =>
    show getCell (setCell (setCell row 2 new_amount) 3 nn) 2 = new_amount
    rw [getCell_setCell_ne _ 3 2 nn (by omega)]
    exact getCell_setCell_self row 2 new_amount

theorem scanUpdate_found (exp_id new_amount : String) (new_note : Option String) :
    ∀ l : List Row,
      (scanUpdate exp_id new_amount new_note l).2 = l.any (matchIdRow exp_id) := by
  intro l
  induction l with
  | nil => rfl
  | cons row rest ih =>
    by_cases h : matchIdRow exp_id row
    · simp [scanUpdate, h]
    · simp [scanUpdate, h, ih]

theorem scanUpdate_not_found (exp_id new_amount : String)
    (new_note : Option String) :
    ∀ l : List Row, l.any (matchIdRow exp_id) = false →
      (scanUpdate exp_id new_amount new_note l).1 = l := by
  intro l
  induction l with
  | nil => intro _; rfl
  | cons row rest ih =>
    intro h
    rw [List.any_cons] at h
    have h1 : matchIdRow exp_id row = false := by
      cases hb : matchIdRow exp_id row
      · rfl
      · rw [hb] at h; simp at h
    have h2 : rest.any (matchIdRow exp_id) = false := by
      rw [h1] at h; simpa using h
    simp [scanUpdate, h1, ih h2]

theorem scanUpdate_found_set (exp_id new_amount : String)
    (new_note : Option String) :
    ∀ l : List Row, l.any (matchIdRow exp_id) = true →
      ∃ j, (scanUpdate exp_id new_amount new_note l).1
          = l.set j (updateMatchedRow new_amount new_note (l.getD j [])) ∧
        matchIdRow exp_id (l.getD j []) = true ∧
        ∀ i, i < j → matchIdRow exp_id (l.getD i []) = false := by
  intro l
  induction l with
  | nil => intro h; simp at h
  | cons row rest ih =>
    intro h
    by_cases hm : matchIdRow exp_id row
    · refine ⟨0, ?_, by simpa using hm, by omega⟩
      simp [scanUpdate, hm]
    · have h2 : rest.any (matchIdRow exp_id) = true := by
        rw [List.any_cons] at h
        cases hb : rest.any (matchIdRow exp_id)
        · rw [hb] at h
          simp [hm] at h
        · rfl
      obtain ⟨j, hset, hmatch, hbefore⟩ := ih h2
      refine ⟨j + 1, ?_, hmatch, ?_⟩
      · simp [scanUpdate, hm, hset]
      · intro i hi
        cases i with
        | zero => simpa using hm
        | succ i => exact hbefore i (by omega)

theorem dlookup_dictInsert (k name : String) (v : Category) :
    ∀ m : Cats, dlookup k (dictInsert name v m)
      = if name = k then some v else dlookup k m := by
  intro m
  induction m with
  | nil => rfl
  | cons p m ih =>
    by_cases hpn : p.1 = name
    · simp only [dictInsert, hpn, if_true]
      by_cases hnk : name = k
      · simp [dlookup, hnk]
      · have hpk : ¬p.1 = k := by rw [hpn]; exact hnk
        simp [dlookup, hnk, hpk]
    · simp only [dictInsert, hpn, if_false]
      by_cases hpk : p.1 = k
      · have hnk : ¬name = k := by
          intro h
          exact hpn (by rw [hpk, h])
        simp [dlookup, hpk, hnk]
      · simp [dlookup, hpk, ih]

theorem dlookup_dictModify (k name : String) (f : Category → Category) :
    ∀ m : Cats, dlookup k (dictModify name f m)
      = if name = k then (dlookup k m).map f else dlookup k m := by
  intro m
  induction m with
  | nil => simp [dictModify, dlookup]
  | cons p m ih =>
    simp only [dictModify, List.map_cons] at *
    by_cases hpn : p.1 = name
    · by_cases hnk : name = k
      · have hpk : p.1 = k := by rw [hpn, hnk]
        simp [dlookup, hpn, hnk, hpk, ih]
      · have hpk : ¬p.1 = k := by rw [hpn]; exact hnk
        simp [dlookup, hpn, hnk, hpk, ih]
    · by_cases hpk : p.1 = k
      · have hnk : ¬name = k := by
          intro h
          exact hpn (by rw [hpk, h])
        have hkn : ¬k = name := fun h => hnk h.symm
        simp [dlookup, hpn, hpk, hnk, hkn, ih]
      · simp [dlookup, hpn, hpk, ih]

theorem keys_dictInsert (k : String) (v : Category) :
    ∀ m : Cats, (dictInsert k v m).map Prod.fst
      = if k ∈ m.map Prod.fst then m.map Prod.fst
        else m.map Prod.fst ++ [k] := by
  intro m
  induction m with
  | nil => rfl
  | cons p m ih =>
    by_cases hpk : p.1 = k
    · simp [dictInsert, hpk]
    · have : k ∈ p.1 :: m.map Prod.fst ↔ k ∈ m.map Prod.fst := by
        constructor
        · intro h
          cases h with
          | head => exact absurd rfl hpk
          | tail _ h => exact h
        · intro h; exact List.mem_cons_of_mem _ h
      by_cases hmem : k ∈ m.map Prod.fst
      · simp [dictInsert, hpk, ih, hmem, this]
      · simp [dictInsert, hpk, ih, hmem, this]

theorem keys_nodup_dictInsert (k : String) (v : Category) (m : Cats)
    (h : (m.map Prod.fst).Nodup) :
    ((dictInsert k v m).map Prod.fst).Nodup := by
  rw [keys_dictInsert]
  by_cases hmem : k ∈ m.map Prod.fst
  · simpa [hmem] using h
  · simp only [hmem, if_false]
    rw [List.nodup_append]
    exact ⟨h, List.nodup_singleton k, by simpa using hmem⟩

theorem catKeyOf_blank_loadCatsStep (gen : Nat → String) (st : Cats × Nat)
    (r : List (String × String)) (h : catKeyOf r = "") :
    loadCatsStep gen st r = some st := by
  simp [loadCatsStep, h]

theorem catKeyOf_blank_loadExpsStep (gen : Nat → String) (st : Cats × Nat)
    (r : List (String × String)) (h : catKeyOf r = "") :
    loadExpsStep gen st r = st := by
  simp [loadExpsStep, h]

theorem loadCatsStep_insert (gen : Nat → String) (st : Cats × Nat)
    (r : List (String × String)) (h : catKeyOf r ≠ "") :
    loadCatsStep gen st r
      = match budgetCoerce? r with
        | none => none
        | some b =>
          some (dictInsert (catKeyOf r)
              ⟨(idOrFresh gen st.2 r).1, b, typeOf r, []⟩ st.1,
            (idOrFresh gen st.2 r).2) := by
  simp only [loadCatsStep, h, if_false]

theorem loadExpsStep_lookup_hit (gen : Nat → String) (st : Cats × Nat)
    (r : List (String × String)) (h : catKeyOf r ≠ "") :
    (dlookup (catKeyOf r) (loadExpsStep gen st r).1).isSome = true := by
  simp only [loadExpsStep, h, if_false]
  cases hlk : dlookup (catKeyOf r) st.1 with
  | none =>
    simp only [hlk, Option.isSome_none, Bool.false_eq_true, if_false]
    rw [dlookup_dictModify, if_pos rfl, dlookup_dictInsert, if_pos rfl]
    rfl
  | some c0 =>
    simp only [hlk, Option.isSome_some, if_true]
    rw [dlookup_dictModify, if_pos rfl, hlk]
    rfl

theorem loadExpsStep_placeholder (gen : Nat → String) (st : Cats × Nat)
    (r : List (String × String)) (h : catKeyOf r ≠ "")
    (habs : dlookup (catKeyOf r) st.1 = none) :
    dlookup (catKeyOf r) (loadExpsStep gen st r).1
      = some ⟨gen (idOrFresh gen st.2 r).2, 0, "Monthly",
          [⟨(idOrFresh gen st.2 r).1, amountCoerce r, noteOf r, dateOf r⟩]⟩ := by
  simp only [loadExpsStep, h, if_false, habs, Option.isSome_none,
    Bool.false_eq_true, if_false]
  rw [dlookup_dictModify, if_pos rfl, dlookup_dictInsert, if_pos rfl]
  rfl

theorem loadExpsStep_expenses (gen : Nat → String) (st : Cats × Nat)
    (r : List (String × String)) (k : String) (hk : k ≠ "") :
    (expensesOf k (loadExpsStep gen st r).1).map expProj
      = (expensesOf k st.1).map expProj
        ++ (if catKeyOf r == k then [(amountCoerce r, noteOf r, dateOf r)]
            else []) := by
  by_cases hc : catKeyOf r = ""
  · rw [catKeyOf_blank_loadExpsStep gen st r hc]
    have hb : (catKeyOf r == k) = false := by
      rw [hc]
      exact beq_eq_false_iff_ne.mpr (Ne.symm hk)
    simp [hb]
  · by_cases hck : catKeyOf r = k
    · have hbeq : (catKeyOf r == k) = true := beq_iff_eq.mpr hck
      subst hck
      cases hlk : dlookup (catKeyOf r) st.1 with
      | none =>
        have hmain := loadExpsStep_placeholder gen st r hc hlk
        simp [expensesOf, hmain, hlk, hbeq, expProj]
      | some c0 =>
        simp only [loadExpsStep, hc, if_false, hlk, Option.isSome_some,
          if_true, hbeq]
        simp [expensesOf, dlookup_dictModify, hlk, expProj]
    · have hbeq : (catKeyOf r == k) = false := beq_eq_false_iff_ne.mpr hck
      simp only [loadExpsStep, hc, if_false, hbeq, if_false]
      by_cases hs : (dlookup (catKeyOf r) st.1).isSome
      · simp [hs, expensesOf, dlookup_dictModify, hck]
      · simp [hs, expensesOf, dlookup_dictModify, dlookup_dictInsert, hck]

theorem loadExps_order (gen : Nat → String) :
    ∀ (rs : List (List (String × String))) (st : Cats × Nat) (k : String),
      k ≠ "" →
      (expensesOf k (loadExps gen rs st).1).map expProj
        = (expensesOf k st.1).map expProj
          ++ (rs.filter (fun r => catKeyOf r == k)).map
              (fun r => (amountCoerce r, noteOf r, dateOf r)) := by
  intro rs
  induction rs with
  | nil => intro st k hk; simp [loadExps]
  | cons r rs ih =>
    intro st k hk
    have hstep := loadExpsStep_expenses gen st r k hk
    have hfold : loadExps gen (r :: rs) st
        = loadExps gen rs (loadExpsStep gen st r) := rfl
    rw [hfold, ih (loadExpsStep gen st r) k hk, hstep]
    by_cases hb : (catKeyOf r == k) = true
    · simp [List.filter_cons, hb]
    · simp [List.filter_cons, hb]

theorem getLast?_cons_ne_none {α : Type} (a : α) :
    ∀ l : List α, (a :: l).getLast? ≠ none := by
  intro l
  induction l generalizing a with
  | nil => intro h; simp at h
  | cons b l ih =>
    rw [List.getLast?_cons_cons]
    exact ih b

theorem loadCats_keys_nodup (gen : Nat → String) :
    ∀ (rs : List (List (String × String))) (st : Cats × Nat) (m : Cats)
      (n : Nat),
      loadCats gen rs st = some (m, n) → (st.1.map Prod.fst).Nodup →
      (m.map Prod.fst).Nodup := by
  intro rs
  induction rs with
  | nil =>
    intro st m n h hnd
    have hst : st = (m, n) := by simpa [loadCats] using h
    subst hst
    exact hnd
  | cons r rs ih =>
    intro st m n h hnd
    cases hstep : loadCatsStep gen st r with
    | none => simp [loadCats, hstep] at h
    | some st1 =>
      have h' : loadCats gen rs st1 = some (m, n) := by
        simpa [loadCats, hstep] using h
      apply ih st1 m n h'
      by_cases hc : catKeyOf r = ""
      · rw [catKeyOf_blank_loadCatsStep gen st r hc] at hstep
        cases hstep
        exact hnd
      · rw [loadCatsStep_insert gen st r hc] at hstep
        cases hb : budgetCoerce? r with
        | none => rw [hb] at hstep; cases hstep
        | some b =>
          rw [hb] at hstep
          cases hstep
          exact keys_nodup_dictInsert _ _ _ hnd

theorem loadCats_last_wins (gen : Nat → String) :
    ∀ (rs : List (List (String × String))) (st : Cats × Nat) (m : Cats)
      (n : Nat),
      loadCats gen rs st = some (m, n) → ∀ k : String, k ≠ "" →
      (((rs.filter (fun r => catKeyOf r == k)).getLast? = none →
          dlookup k m = dlookup k st.1) ∧
        (∀ r, (rs.filter (fun r => catKeyOf r == k)).getLast? = some r →
          ∃ c, dlookup k m = some c ∧ budgetCoerce? r = some c.budget ∧
            c.type = typeOf r ∧ c.expenses = [] ∧
            ∀ s, recGet r "id" = some s → s ≠ "" → c.id = s)) := by
  intro rs
  induction rs with
  | nil =>
    intro st m n h k hk
    have hst : st = (m, n) := by simpa [loadCats] using h
    subst hst
    refine ⟨fun _ => rfl, fun r hr => ?_⟩
    simp at hr
  | cons r rs ih =>
    intro st m n h k hk
    cases hstep : loadCatsStep gen st r with
    | none => simp [loadCats, hstep] at h
    | some st1 =>
      have h' : loadCats gen rs st1 = some (m, n) := by
        simpa [loadCats, hstep] using h
      have IH := ih st1 m n h' k hk
      by_cases hc : catKeyOf r = ""
      · have hbeq : (catKeyOf r == k) = false := by
          rw [hc]
          exact beq_eq_false_iff_ne.mpr (Ne.symm hk)
        rw [catKeyOf_blank_loadCatsStep gen st r hc] at hstep
        cases hstep
        simpa [List.filter_cons, hbeq] using IH
      · rw [loadCatsStep_insert gen st r hc] at hstep
        cases hb : budgetCoerce? r with
        | none => rw [hb] at hstep; cases hstep
        | some b =>
          rw [hb] at hstep
          cases hstep
          by_cases hck : catKeyOf r = k
          · have hbeq : (catKeyOf r == k) = true := beq_iff_eq.mpr hck
            cases hfl : rs.filter (fun r => catKeyOf r == k) with
            | nil =>
              constructor
              · intro hnone
                simp [List.filter_cons, hbeq, hfl] at hnone
              · intro r' hr'
                have hr2 : r' = r := by
                  simp [List.filter_cons, hbeq, hfl] at hr'
                  exact hr'.symm
                rw [hr2]
                have hm : dlookup k m = dlookup k
                    (dictInsert (catKeyOf r)
                      ⟨(idOrFresh gen st.2 r).1, b, typeOf r, []⟩ st.1) :=
                  IH.1 (by rw [hfl]; rfl)
                rw [dlookup_dictInsert, if_pos hck] at hm
                refine ⟨_, hm, by rw [hb], rfl, rfl, ?_⟩
                intro s hs hne
                simp [idOrFresh, hs, hne]
            | cons a tl =>
              have hcast : (r :: a :: tl).getLast? = (a :: tl).getLast? :=
                List.getLast?_cons_cons
              constructor
              · intro hnone
                rw [List.filter_cons, if_pos hbeq, hfl, hcast] at hnone
                exact absurd hnone (getLast?_cons_ne_none a tl)
              · intro r' hr'
                rw [List.filter_cons, if_pos hbeq, hfl, hcast] at hr'
                exact IH.2 r' (by rw [hfl]; exact hr')
          · have hbeq : (catKeyOf r == k) = false := beq_eq_false_iff_ne.mpr hck
            constructor
            · intro hnone
              rw [List.filter_cons, if_neg (by simp [hbeq])] at hnone
              rw [IH.1 hnone, dlookup_dictInsert, if_neg hck]
            · intro r' hr'
              rw [List.filter_cons, if_neg (by simp [hbeq])] at hr'
              exact IH.2 r' hr'

theorem ratTrunc_intCast (n : Int) : ratTrunc ((n : Int) : Rat) = n := by
  unfold ratTrunc
  by_cases h : (0 : Rat) ≤ (n : Rat)
  · rw [if_pos h, Int.floor_intCast]
  · rw [if_neg h, ← Int.cast_neg, Int.floor_intCast, neg_neg]

theorem ratTrunc_neg (q : Rat) : ratTrunc (-q) = -ratTrunc q := by
  unfold ratTrunc
  rcases lt_trichotomy q 0 with h | h | h
  · rw [if_pos (by linarith), if_neg (not_le.mpr h), neg_neg]
  · subst h
    simp
  · rw [if_neg (by simpa using not_le.mpr h), if_pos h.le, neg_neg]

theorem trunc_mag (iv fv k : Nat) (e : Int) :
    (if 0 ≤ e - (k : Int)
      then ((iv : Int) * (10 : Int) ^ k + (fv : Int))
          * (10 : Int) ^ (e - (k : Int)).toNat
      else ((iv : Int) * (10 : Int) ^ k + (fv : Int)).tdiv
          ((10 : Int) ^ (-(e - (k : Int))).toNat))
      = ratTrunc (((iv : Rat) + (fv : Rat) / (10 : Rat) ^ k)
          * (10 : Rat) ^ (e : Int)) := by
  set m : Int := (iv : Int) * (10 : Int) ^ k + (fv : Int) with hmdef
  have hm0 : 0 ≤ m := by positivity
  have h10 : (10 : Rat) ≠ 0 := by norm_num
  have hval : ((iv : Rat) + (fv : Rat) / (10 : Rat) ^ k) * (10 : Rat) ^ (e : Int)
      = (m : Rat) * (10 : Rat) ^ (e - (k : Int)) := by
    rw [zpow_sub₀ h10, zpow_natCast]
    rw [hmdef]
    push_cast
    field_simp
  rw [hval]
  by_cases hsh : 0 ≤ e - (k : Int)
  · rw [if_pos hsh]
    have hcast : ((m * (10 : Int) ^ (e - (k : Int)).toNat : Int) : Rat)
        = (m : Rat) * (10 : Rat) ^ (e - (k : Int)) := by
      push_cast
      rw [← zpow_natCast (10 : Rat) (e - (k : Int)).toNat,
        Int.toNat_of_nonneg hsh]
    rw [← hcast, ratTrunc_intCast]
  · rw [if_neg hsh]
    set j : Nat := (-(e - (k : Int))).toNat with hjdef
    have hsh2 : e - (k : Int) = -(j : Int) := by omega
    rw [hsh2]
    have hdiv : (m : Rat) * (10 : Rat) ^ (-(j : Int) : Int)
        = (m : Rat) / (((10 : Nat) ^ j : Nat) : Rat) := by
      rw [zpow_neg, zpow_natCast]
      push_cast
      ring
    rw [hdiv]
    have hq0 : (0 : Rat) ≤ (m : Rat) / (((10 : Nat) ^ j : Nat) : Rat) := by
      positivity
    rw [ratTrunc, if_pos hq0, Rat.floor_intCast_div_natCast m ((10 : Nat) ^ j)]
    rw [Int.tdiv_eq_ediv hm0 (by positivity)]
    norm_num

theorem pythonIntFloat_eq_trunc (s : String) :
    pythonIntFloat? s = (decimalVal? s).map ratTrunc := by
  unfold pythonIntFloat? decimalVal?
  cases hp : parseDecParts? s with
  | none => rfl
  | some q =>
    obtain ⟨sign, iv, fv, k, e⟩ := q
    simp only [Option.map_some']
    congr 1
    cases sign with
    | false =>
      simpa using trunc_mag iv fv k e
    | true =>
      have hmag := trunc_mag iv fv k e
      have hneg : ((-1 : Rat)) * ((iv : Rat) + (fv : Rat) / (10 : Rat) ^ k)
          * (10 : Rat) ^ (e : Int)
          = -(((iv : Rat) + (fv : Rat) / (10 : Rat) ^ k)
              * (10 : Rat) ^ (e : Int)) := by ring
      simp only [if_true]
      rw [hneg, ratTrunc_neg, ← hmag]

theorem digitChar_mem10 (d : Nat) (h : d < 10) :
    Nat.digitChar d ∈ digitChars10 := by
  have hball : ∀ d < 10, Nat.digitChar d ∈ digitChars10 := by decide
  exact hball d h

theorem natDigits_mem10 (n : Nat) : ∀ c ∈ natDigits n, c ∈ digitChars10 := by
  induction n using Nat.strong_induction_on with
  | _ n ih =>
    intro c hc
    rw [natDigits] at hc
    by_cases h : n < 10
    · rw [dif_pos h] at hc
      simp at hc
      subst hc
      exact digitChar_mem10 n h
    · rw [dif_neg h] at hc
      rcases List.mem_append.mp hc with h1 | h2
      · exact ih (n / 10) (Nat.div_lt_self (by omega) (by omega)) c h1
      · simp at h2
        subst h2
        exact digitChar_mem10 (n % 10) (Nat.mod_lt n (by omega))

theorem natDigits_ne_nil (n : Nat) : natDigits n ≠ [] := by
  rw [natDigits]
  by_cases h : n < 10
  · rw [dif_pos h]
    simp
  · rw [dif_neg h]
    simp

theorem digitsVal_natDigits (n : Nat) : digitsVal (natDigits n) = n := by
  induction n using Nat.strong_induction_on with
  | _ n ih =>
    rw [natDigits]
    by_cases h : n < 10
    · rw [dif_pos h]
      have hball : ∀ d < 10, digitsVal [Nat.digitChar d] = d := by decide
      exact hball n h
    · rw [dif_neg h]
      have hball : ∀ d < 10, ¬Nat.digitChar d = '_' ∧
          digitVal (Nat.digitChar d) = d := by decide
      obtain ⟨hne, hval⟩ := hball (n % 10) (Nat.mod_lt n (by omega))
      have hfold : digitsVal (natDigits (n / 10) ++ [Nat.digitChar (n % 10)])
          = 10 * digitsVal (natDigits (n / 10)) + (n % 10) := by
        unfold digitsVal
        rw [List.foldl_append]
        show (if Nat.digitChar (n % 10) = '_'
            then List.foldl _ 0 (natDigits (n / 10))
            else 10 * List.foldl _ 0 (natDigits (n / 10))
              + digitVal (Nat.digitChar (n % 10)))
          = _
        rw [if_neg hne, hval]
      rw [hfold, ih (n / 10) (Nat.div_lt_self (by omega) (by omega))]
      omega

theorem digitsU_mem10 : ∀ cs : List Char, cs ≠ [] →
    (∀ c ∈ cs, c ∈ digitChars10) → digitsU cs = true := by
  have hdig : ∀ c ∈ digitChars10, c.isDigit = true := by decide
  have hund : ∀ c ∈ digitChars10, (c = '_') = False := by decide
  intro cs
  induction cs with
  | nil => intro h; exact absurd rfl h
  | cons c cs ih =>
    intro _ hmem
    cases cs with
    | nil =>
      show c.isDigit = true
      exact hdig c (hmem c (List.mem_cons_self c []))
    | cons c2 rest =>
      show (c.isDigit && (if c2 = '_' then digitsU rest
          else digitsU (c2 :: rest))) = true
      have hc := hdig c (hmem c (by simp))
      have hc2 : ¬c2 = '_' := by
        have := hund c2 (hmem c2 (by simp))
        simp [this]
      rw [if_neg hc2, hc]
      simp only [Bool.true_and]
      exact ih (by simp) (fun x hx => hmem x (List.mem_cons_of_mem c hx))

theorem dropWhile_no_match (p : Char → Bool) :
    ∀ cs : List Char, (∀ c ∈ cs, p c = false) → cs.dropWhile p = cs := by
  intro cs h
  cases cs with
  | nil => rfl
  | cons a l =>
    rw [List.dropWhile_cons, h a (List.mem_cons_self a l)]
    simp

theorem pstrip_no_ws (cs : List Char)
    (h : ∀ c ∈ cs, c.isWhitespace = false) : pstrip cs = cs := by
  have h1 : cs.dropWhile Char.isWhitespace = cs := dropWhile_no_match _ cs h
  have h2 : cs.reverse.dropWhile Char.isWhitespace = cs.reverse :=
    dropWhile_no_match _ cs.reverse
      (fun c hc => h c (List.mem_reverse.mp hc))
  unfold pstrip
  rw [h1, h2, List.reverse_reverse]

theorem splitAtExp_digits :
    ∀ cs : List Char, (∀ c ∈ cs, c ∈ digitChars10) →
      splitAtExp cs = (cs, none) := by
  have hne : ∀ c ∈ digitChars10, ¬(c = 'e' ∨ c = 'E') := by decide
  intro cs
  induction cs with
  | nil => intro _; rfl
  | cons c l ih =>
    intro hmem
    rw [splitAtExp]
    rw [if_neg (hne c (hmem c (by simp)))]
    rw [ih (fun x hx => hmem x (List.mem_cons_of_mem c hx))]

theorem splitAtDot_digits :
    ∀ cs : List Char, (∀ c ∈ cs, c ∈ digitChars10) →
      splitAtDot cs = (cs, none) := by
  have hne : ∀ c ∈ digitChars10, ¬c = '.' := by decide
  intro cs
  induction cs with
  | nil => intro _; rfl
  | cons c l ih =>
    intro hmem
    rw [splitAtDot]
    rw [if_neg (hne c (hmem c (by simp)))]
    rw [ih (fun x hx => hmem x (List.mem_cons_of_mem c hx))]

theorem parseSign_digits (cs : List Char)
    (h : ∀ c ∈ cs, c ∈ digitChars10) : parseSign cs = (false, cs) := by
  have hp : ∀ c ∈ digitChars10, ¬c = '+' := by decide
  have hm : ∀ c ∈ digitChars10, ¬c = '-' := by decide
  cases cs with
  | nil => rfl
  | cons c l =>
    rw [parseSign]
    rw [if_neg (hp c (h c (by simp))), if_neg (hm c (h c (by simp)))]

theorem mem10_not_ws (cs : List Char) (h : ∀ c ∈ cs, c ∈ digitChars10) :
    ∀ c ∈ cs, c.isWhitespace = false := by
  have hball : ∀ c ∈ digitChars10, c.isWhitespace = false := by decide
  exact fun c hc => hball c (h c hc)

theorem parseDecParts_digits (n : Nat) :
    parseDecParts? ((natDigits n).asString) = some (false, n, 0, 0, 0) := by
  have hmem := natDigits_mem10 n
  have htl : ((natDigits n).asString).data = natDigits n := rfl
  unfold parseDecParts?
  simp [htl, pstrip_no_ws _ (mem10_not_ws _ hmem), parseSign_digits _ hmem,
    splitAtExp_digits _ hmem, splitAtDot_digits _ hmem,
    digitsU_mem10 _ (natDigits_ne_nil n) hmem, digitsVal_natDigits]

theorem parseDecParts_neg_digits (n : Nat) :
    parseDecParts? ("-" ++ (natDigits n).asString)
      = some (true, n, 0, 0, 0) := by
  have hmem := natDigits_mem10 n
  have htl : ((natDigits n).asString).data = natDigits n := rfl
  have hws : ∀ c ∈ '-' :: natDigits n, c.isWhitespace = false := by
    intro c hc
    rcases List.mem_cons.mp hc with h | h
    · subst h; decide
    · exact mem10_not_ws _ hmem c h
  have hsign : parseSign ('-' :: natDigits n) = (true, natDigits n) := by
    rw [parseSign]
    rw [if_neg (by decide), if_pos rfl]
  unfold parseDecParts?
  simp [htl, pstrip_no_ws _ hws, hsign,
    splitAtExp_digits _ hmem, splitAtDot_digits _ hmem,
    digitsU_mem10 _ (natDigits_ne_nil n) hmem, digitsVal_natDigits]

theorem toDigitsCore_eq_natDigits :
    ∀ (fuel n : Nat) (ds : List Char), n < fuel →
      Nat.toDigitsCore 10 fuel n ds = natDigits n ++ ds := by
  intro fuel
  induction fuel with
  | zero => intro n ds h; omega
  | succ f ih =>
    intro n ds h
    show (let d := Nat.digitChar (n % 10); let n' := n / 10;
      if n' = 0 then d :: ds else Nat.toDigitsCore 10 f n' (d :: ds))
      = natDigits n ++ ds
    by_cases h0 : n / 10 = 0
    · have hn : n < 10 := by omega
      simp only [h0, if_true]
      rw [natDigits, dif_pos hn, Nat.mod_eq_of_lt hn]
      rfl
    · have h10 : ¬n < 10 := by omega
      have hlt : n / 10 < f := by
        have := Nat.div_lt_self (n := n) (by omega) (by omega : (1:Nat) < 10)
        omega
      simp only [h0, if_false]
      rw [ih (n / 10) (Nat.digitChar (n % 10) :: ds) hlt]
      conv_rhs => rw [natDigits]
      rw [dif_neg h10]
      simp

theorem natRepr_eq_natDigits (n : Nat) :
    Nat.repr n = (natDigits n).asString := by
  unfold Nat.repr Nat.toDigits
  rw [toDigitsCore_eq_natDigits (n + 1) n [] (by omega)]
  simp

theorem pythonIntFloat_natRepr (n : Nat) :
    pythonIntFloat? (Nat.repr n) = some (n : Int) := by
  rw [natRepr_eq_natDigits]
  unfold pythonIntFloat?
  rw [parseDecParts_digits]
  simp

theorem pythonIntFloat_toString_int (b : Int) :
    pythonIntFloat? (toString b) = some b := by
  cases b with
  | ofNat m =>
    show pythonIntFloat? (Nat.repr m) = some (Int.ofNat m)
    rw [pythonIntFloat_natRepr]
    rfl
  | negSucc m =>
    show pythonIntFloat? ("-" ++ Nat.repr (m + 1)) = some (Int.negSucc m)
    rw [natRepr_eq_natDigits]
    unfold pythonIntFloat?
    rw [parseDecParts_neg_digits]
    simp only [Option.map_some']
    congr 1
    have : Int.negSucc m = -((m + 1 : Nat) : Int) := by
      rw [Int.negSucc_eq]
      push_cast
      ring
    rw [this]
    simp

theorem toString_int_ne_empty (b : Int) : toString b ≠ "" := by
  cases b with
  | ofNat m =>
    show Nat.repr m ≠ ""
    rw [natRepr_eq_natDigits]
    intro h
    exact natDigits_ne_nil m (congrArg String.toList h)
  | negSucc m =>
    show ("-" ++ Nat.repr (m + 1)) ≠ ""
    rw [natRepr_eq_natDigits]
    intro h
    have := congrArg String.toList h
    simp at this

theorem loadCats_append (gen : Nat → String) (r : List (String × String)) :
    ∀ (rs : List (List (String × String))) (st : Cats × Nat),
      loadCats gen (rs ++ [r]) st
        = (loadCats gen rs st).bind (fun st1 => loadCatsStep gen st1 r) := by
  intro rs
  induction rs with
  | nil =>
    intro st
    cases h : loadCatsStep gen st r <;> simp [loadCats, h]
  | cons r0 rs ih =>
    intro st
    cases h : loadCatsStep gen st r0 <;> simp [loadCats, h, ih]

theorem loadExpsStep_preserves (gen : Nat → String) (st : Cats × Nat)
    (r : List (String × String)) (k : String) (c : Category)
    (h : dlookup k st.1 = some c) :
    ∃ c2, dlookup k (loadExpsStep gen st r).1 = some c2 ∧
      c2.id = c.id ∧ c2.budget = c.budget ∧ c2.type = c.type := by
  by_cases hc : catKeyOf r = ""
  · rw [catKeyOf_blank_loadExpsStep gen st r hc]
    exact ⟨c, h, rfl, rfl, rfl⟩
  · by_cases hck : catKeyOf r = k
    · have hsome : (dlookup (catKeyOf r) st.1).isSome = true := by
        rw [hck, h]; rfl
      simp only [loadExpsStep, hc, if_false, hsome, if_true]
      rw [dlookup_dictModify, if_pos hck, h]
      exact ⟨_, rfl, rfl, rfl, rfl⟩
    · simp only [loadExpsStep, hc, if_false]
      cases hlk : dlookup (catKeyOf r) st.1 with
      | none =>
        simp only [hlk, Option.isSome_none, Bool.false_eq_true, if_false]
        rw [dlookup_dictModify, if_neg hck, dlookup_dictInsert, if_neg hck, h]
        exact ⟨c, rfl, rfl, rfl, rfl⟩
      | some c0 =>
        simp only [hlk, Option.isSome_some, if_true]
        rw [dlookup_dictModify, if_neg hck, h]
        exact ⟨c, rfl, rfl, rfl, rfl⟩

theorem loadExps_preserves (gen : Nat → String) :
    ∀ (rs : List (List (String × String))) (st : Cats × Nat) (k : String)
      (c : Category), dlookup k st.1 = some c →
      ∃ c2, dlookup k (loadExps gen rs st).1 = some c2 ∧
        c2.id = c.id ∧ c2.budget = c.budget ∧ c2.type = c.type := by
  intro rs
  induction rs with
  | nil => intro st k c h; exact ⟨c, h, rfl, rfl, rfl⟩
  | cons r rs ih =>
    intro st k c h
    obtain ⟨c1, h1, hi1, hb1, ht1⟩ := loadExpsStep_preserves gen st r k c h
    obtain ⟨c2, h2, hi2, hb2, ht2⟩ := ih (loadExpsStep gen st r) k c1 h1
    exact ⟨c2, h2, hi2.trans hi1, hb2.trans hb1, ht2.trans ht1⟩

/-! ## Claims -/

/-- C1: after `delete_category_and_its_expenses` with target `name`, each of
the two tables equals its original with exactly the matching data rows
removed (header and all non-matching rows preserved, in order, which is
what the collect-then-delete-in-reverse-index-order pass achieves), and in
particular no remaining data row of either table carries `name` in its
category (second) column. -/
theorem delete_category_cascade_spec (catVals expVals : Table) (name : String) :
    (delete_category_and_its_expenses catVals expVals name).1
        = filterPass catVals name ∧
    (delete_category_and_its_expenses catVals expVals name).2
        = filterPass expVals name ∧
    ((delete_category_and_its_expenses catVals expVals name).1.tail.all
        (fun row => !matchCatRow name row)) = true ∧
    ((delete_category_and_its_expenses catVals expVals name).2.tail.all
        (fun row => !matchCatRow name row)) = true := by
  have h1 : (delete_category_and_its_expenses catVals expVals name).1
      = filterPass catVals name := deleteCategoryPass_eq_filterPass _ _
  have h2 : (delete_category_and_its_expenses catVals expVals name).2
      = filterPass expVals name := deleteCategoryPass_eq_filterPass _ _
  refine ⟨h1, h2, ?_, ?_⟩
  · rw [h1]
    cases catVals with
    | nil => rfl
    | cons h t =>
      simp only [filterPass, List.tail_cons, List.all_eq_true]
      intro row hrow
      exact (List.mem_filter.mp hrow).2
  · rw [h2]
    cases expVals with
    | nil => rfl
    | cons h t =>
      simp only [filterPass, List.tail_cons, List.all_eq_true]
      intro row hrow
      exact (List.mem_filter.mp hrow).2

/-- C3: for an existing worksheet, `ensure_ws` overwrites a mismatching
first row with the expected headers and leaves every later row unchanged;
when the first row already equals the headers the table is untouched. -/
theorem ensure_ws_existing_spec (vals : Table) (headers : Row) :
    (vals.headD [] ≠ headers →
      (ensure_ws (some vals) headers).headD [] = headers ∧
      (ensure_ws (some vals) headers).tail = vals.tail) ∧
    (vals.headD [] = headers → ensure_ws (some vals) headers = vals) := by
  constructor
  · intro h
    show ((if vals.headD [] = headers then vals
        else headers :: vals.tail).headD [] = headers ∧
      (if vals.headD [] = headers then vals
        else headers :: vals.tail).tail = vals.tail)
    rw [if_neg h]
    exact ⟨rfl, rfl⟩
  · intro h
    show (if vals.headD [] = headers then vals
        else headers :: vals.tail) = vals
    rw [if_pos h]

/-- C3 witness: a table whose stale header `["x"]` is replaced while the
data row below survives unchanged. -/
theorem ensure_ws_existing_spec_witness :
    (ensure_ws (some [["x"], ["a", "b"]]) ["id", "category"]).headD []
        = ["id", "category"] ∧
    (ensure_ws (some [["x"], ["a", "b"]]) ["id", "category"]).tail
        = [["a", "b"]] :=
  (ensure_ws_existing_spec [["x"], ["a", "b"]] ["id", "category"]).1 (by decide)

/-- C2: `update_expense_amount` reports whether some data row's id column
matches; with no match the table is untouched; with a match the table
changes only at the first matching data row, and that row changes only in
its amount cell (0-based column 2) and, when a new note is supplied, its
note cell (0-based column 3). -/
theorem update_expense_spec (vals : Table) (exp_id new_amount : String)
    (new_note : Option String) :
    ((update_expense_amount vals exp_id new_amount new_note).2
        = vals.tail.any (matchIdRow exp_id)) ∧
    ((update_expense_amount vals exp_id new_amount new_note).2 = false →
      (update_expense_amount vals exp_id new_amount new_note).1 = vals) ∧
    ((update_expense_amount vals exp_id new_amount new_note).2 = true →
      ∃ j,
        (update_expense_amount vals exp_id new_amount new_note).1
          = vals.take 1 ++ vals.tail.set j
              (updateMatchedRow new_amount new_note (vals.tail.getD j [])) ∧
        matchIdRow exp_id (vals.tail.getD j []) = true ∧
        (∀ i, i < j → matchIdRow exp_id (vals.tail.getD i []) = false) ∧
        (∀ c, c ≠ 2 → c ≠ 3 →
          getCell (updateMatchedRow new_amount new_note (vals.tail.getD j [])) c
            = getCell (vals.tail.getD j []) c) ∧
        (new_note = none → ∀ c, c ≠ 2 →
          getCell (updateMatchedRow new_amount new_note (vals.tail.getD j [])) c
            = getCell (vals.tail.getD j []) c) ∧
        getCell (updateMatchedRow new_amount new_note (vals.tail.getD j [])) 2
          = new_amount ∧
        (∀ nn, new_note = some nn →
          getCell (updateMatchedRow new_amount new_note (vals.tail.getD j [])) 3
            = nn)) := by
  cases vals with
  | nil =>
    refine ⟨rfl, fun _ => rfl, fun h => ?_⟩
    exact absurd h (by simp [update_expense_amount])
  | cons hd t
  =>
    have e2 : (update_expense_amount (hd :: t) exp_id new_amount new_note).2
        = (scanUpdate exp_id new_amount new_note t).2 := rfl
    have e1 : (update_expense_amount (hd :: t) exp_id new_amount new_note).1
        = hd :: (scanUpdate exp_id new_amount new_note t).1 := rfl
    refine ⟨?_, ?_, ?_⟩
    · rw [e2, scanUpdate_found]
      rfl
    · intro hfalse
      rw [e1]
      rw [e2, scanUpdate_found exp_id new_amount new_note t] at hfalse
      rw [scanUpdate_not_found exp_id new_amount new_note t hfalse]
    · intro htrue
      rw [e2, scanUpdate_found exp_id new_amount new_note t] at htrue
      obtain ⟨j, hset, hmatch, hbefore⟩ :=
        scanUpdate_found_set exp_id new_amount new_note t htrue
      refine ⟨j, ?_, hmatch, hbefore, ?_, ?_, ?_, ?_⟩
      · rw [e1, hset]
        rfl
      · intro c h2 h3
        exact getCell_update_other new_amount new_note _ c h2 h3
      · intro hnone c h2
        subst hnone
        exact getCell_setCell_ne _ 2 c new_amount h2
      · exact getCell_update_amount new_amount new_note _
      · intro nn hnn
        subst hnn
        exact getCell_setCell_self _ 3 nn

/-- C2 witness: on a concrete two-expense table, updating id `"e2"` with a
new note rewrites exactly that row's amount and note cells and reports
success. -/
theorem update_expense_spec_witness :
    (update_expense_amount
        [["id", "category", "amount", "note", "date"],
         ["e1", "Food", "100", "a", "d1"],
         ["e2", "Rent", "5", "b", "d2"]]
        "e2" "42" (some "nn")).1
      = [["id", "category", "amount", "note", "date"],
         ["e1", "Food", "100", "a", "d1"],
         ["e2", "Rent", "42", "nn", "d2"]] := by
  obtain ⟨j, hset, hmatch, hbefore, _, _, _, _⟩ :=
    (update_expense_spec
      [["id", "category", "amount", "note", "date"],
       ["e1", "Food", "100", "a", "d1"],
       ["e2", "Rent", "5", "b", "d2"]]
      "e2" "42" (some "nn")).2.2 (by decide)
  have hj : j = 1 := by
    rcases Nat.lt_trichotomy j 1 with h | h | h
    · interval_cases j
      · exact absurd hmatch (by decide)
    · exact h
    · have := hbefore 1 h
      exact absurd this (by decide)
  rw [hset, hj]
  decide

/-- C6: when an expense record's non-blank (stripped) category name has no
entry in the mapping, the expense loop inserts a placeholder category under
that name — budget 0, type `"Monthly"`, freshly generated id — holding the
expense; moreover every category's expense list (projected to the fields
taken from the records) is exactly the matching expense records, in the row
store's order. -/
theorem load_placeholder_synthesis :
    (∀ (gen : Nat → String) (st : Cats × Nat) (r : List (String × String)),
        catKeyOf r ≠ "" → dlookup (catKeyOf r) st.1 = none →
        dlookup (catKeyOf r) (loadExpsStep gen st r).1
          = some ⟨gen (idOrFresh gen st.2 r).2, 0, "Monthly",
              [⟨(idOrFresh gen st.2 r).1, amountCoerce r, noteOf r,
                dateOf r⟩]⟩) ∧
    (∀ (gen : Nat → String) (rs : List (List (String × String)))
        (st : Cats × Nat) (k : String), k ≠ "" →
        (expensesOf k (loadExps gen rs st).1).map expProj
          = (expensesOf k st.1).map expProj
            ++ (rs.filter (fun r => catKeyOf r == k)).map
                (fun r => (amountCoerce r, noteOf r, dateOf r))) :=
  ⟨loadExpsStep_placeholder, loadExps_order⟩

/-- C6 witness: an expense record for the unknown category `"Ghost"`
produces the placeholder category with budget 0, type `"Monthly"`, a fresh
id, and the expense (amount `"12.9"` truncated to 12) appended. -/
theorem load_placeholder_synthesis_witness :
    dlookup "Ghost" (loadExpsStep mkGen ([], 0)
        (zipRecord stdExpHeaders ["e1", "Ghost", "12.9", "", ""])).1
      = some ⟨"fresh0", 0, "Monthly", [⟨"e1", 12, "", ""⟩]⟩ :=
  load_placeholder_synthesis.1 mkGen ([], 0)
    (zipRecord stdExpHeaders ["e1", "Ghost", "12.9", "", ""])
    (by decide) rfl

/-- C9: when the category loop succeeds, category names are unique keys of
the loaded mapping, and the entry under any (non-blank) name carries the
budget, type and stored id of the LAST record of that name in the table —
later duplicate rows silently overwrite earlier ones. -/
theorem load_duplicate_names_last_wins (gen : Nat → String)
    (rs : List (List (String × String))) (m : Cats) (n : Nat)
    (h : loadCats gen rs ([], 0) = some (m, n)) :
    (m.map Prod.fst).Nodup ∧
    ∀ k : String, k ≠ "" →
      ∀ r, (rs.filter (fun r => catKeyOf r == k)).getLast? = some r →
        ∃ c, dlookup k m = some c ∧ budgetCoerce? r = some c.budget ∧
          c.type = typeOf r ∧ c.expenses = [] ∧
          ∀ s, recGet r "id" = some s → s ≠ "" → c.id = s := by
  constructor
  · exact loadCats_keys_nodup gen rs ([], 0) m n h (by simp)
  · intro k hk r hr
    exact ((loadCats_last_wins gen rs ([], 0) m n h k hk).2) r hr

/-- C9 witness: two stored rows named `"Food"` load into the single entry
taken from the second (last) row: budget 2, type `"Monthly"`, id `"idb"`. -/
theorem load_duplicate_names_last_wins_witness :
    ∃ c, dlookup "Food" [("Food", ⟨"idb", 2, "Monthly", []⟩)] = some c ∧
      budgetCoerce? (zipRecord stdCatHeaders ["idb", "Food", "2", "Monthly"])
        = some c.budget ∧
      c.type = typeOf (zipRecord stdCatHeaders ["idb", "Food", "2", "Monthly"]) ∧
      c.expenses = [] ∧
      ∀ s, recGet (zipRecord stdCatHeaders ["idb", "Food", "2", "Monthly"]) "id"
          = some s → s ≠ "" → c.id = s :=
  (load_duplicate_names_last_wins mkGen
      (get_all_records [stdCatHeaders, ["ida", "Food", "1", "Weekly"],
        ["idb", "Food", "2", "Monthly"]])
      [("Food", ⟨"idb", 2, "Monthly", []⟩)] 0 rfl).2 "Food" (by decide) _ rfl

/-- C10: both loader loops key records by the whitespace-stripped category
field — blank or all-whitespace names are skipped outright, and a record's
data lands under its stripped name — while the cascade delete compares the
raw cell value: concretely, a store whose category cell is `" Food"` loads
(together with expense rows `" Food"` and `"Food "`) into the single
displayed category `"Food"`, yet cascade-deleting `"Food"` leaves both
tables completely unchanged. -/
theorem category_trim_semantics :
    (∀ (gen : Nat → String) (st : Cats × Nat) (r : List (String × String)),
        catKeyOf r = "" → loadCatsStep gen st r = some st) ∧
    (∀ (gen : Nat → String) (st : Cats × Nat) (r : List (String × String)),
        catKeyOf r = "" → loadExpsStep gen st r = st) ∧
    (∀ (gen : Nat → String) (st : Cats × Nat) (r : List (String × String)),
        catKeyOf r ≠ "" →
        (dlookup (catKeyOf r) (loadExpsStep gen st r).1).isSome = true) ∧
    load_data_from_sheets mkGen
        [stdCatHeaders, ["id1", " Food", "500", "Monthly"]]
        [stdExpHeaders, ["e1", " Food", "1", "", ""],
          ["e2", "Food ", "2", "", ""]]
      = some [("Food", ⟨"id1", 500, "Monthly",
          [⟨"e1", 1, "", ""⟩, ⟨"e2", 2, "", ""⟩]⟩)] ∧
    delete_category_and_its_expenses
        [stdCatHeaders, ["id1", " Food", "500", "Monthly"]]
        [stdExpHeaders, ["e1", " Food", "1", "", ""],
          ["e2", "Food ", "2", "", ""]] "Food"
      = ([stdCatHeaders, ["id1", " Food", "500", "Monthly"]],
         [stdExpHeaders, ["e1", " Food", "1", "", ""],
          ["e2", "Food ", "2", "", ""]]) :=
  ⟨catKeyOf_blank_loadCatsStep, catKeyOf_blank_loadExpsStep,
    loadExpsStep_lookup_hit, rfl, rfl⟩

/-- C10 witness: an expense record whose category cell is all whitespace is
skipped entirely by the expense loop. -/
theorem category_trim_semantics_witness :
    loadExpsStep mkGen ([], 0)
        (zipRecord stdExpHeaders ["e9", "   ", "5", "", ""]) = ([], 0) :=
  category_trim_semantics.2.1 mkGen ([], 0)
    (zipRecord stdExpHeaders ["e9", "   ", "5", "", ""]) (by decide)

/-- C7: the loaded expense amount is the decimal value of the raw field
truncated toward zero, any parse failure (or blank/missing field) loading
as 0: the integer-shift arithmetic of the code equals rational truncation
of the parsed decimal for every string, `"abc"` loads as 0, and `"12.9"`
loads as 12 rather than 13. -/
theorem amount_truncation_spec :
    (∀ s : String, pythonIntFloat? s = (decimalVal? s).map ratTrunc) ∧
    (∀ (r : List (String × String)) (s : String),
        recGet r "amount" = some s →
        amountCoerce r = ((decimalVal? s).map ratTrunc).getD 0) ∧
    amountCoerce (zipRecord stdExpHeaders ["e1", "Food", "abc", "", ""]) = 0 ∧
    amountCoerce (zipRecord stdExpHeaders ["e1", "Food", "12.9", "", ""])
      = 12 := by
  refine ⟨pythonIntFloat_eq_trunc, ?_, by decide, by decide⟩
  intro r s hs
  simp only [amountCoerce, hs]
  by_cases he : s = ""
  · subst he
    decide
  · rw [if_neg he, pythonIntFloat_eq_trunc]

/-- C7 witness: the record with raw amount `"12.9"` loads with exactly the
truncated decimal value of that field. -/
theorem amount_truncation_spec_witness :
    amountCoerce (zipRecord stdExpHeaders ["e1", "Food", "12.9", "", ""])
      = ((decimalVal? "12.9").map ratTrunc).getD 0 :=
  amount_truncation_spec.2.1
    (zipRecord stdExpHeaders ["e1", "Food", "12.9", "", ""]) "12.9" rfl

/-- C8: a missing or empty budget field loads as 0 and the decimal
rendering of any integer is accepted and loads as that integer; but a
non-empty non-numeric budget (concretely `"abc"`) makes the coercion fail,
and — unlike the caught expense-amount conversion — the failure propagates
out of the category loop as a fatal error (the whole load aborts). -/
theorem budget_coercion_spec :
    (∀ r : List (String × String), recGet r "budget" = none →
        budgetCoerce? r = some 0) ∧
    (∀ r : List (String × String), recGet r "budget" = some "" →
        budgetCoerce? r = some 0) ∧
    (∀ (r : List (String × String)) (b : Int),
        recGet r "budget" = some (toString b) → budgetCoerce? r = some b) ∧
    (∀ (gen : Nat → String) (st : Cats × Nat) (r : List (String × String)),
        catKeyOf r ≠ "" → budgetCoerce? r = none →
        loadCatsStep gen st r = none) ∧
    load_data_from_sheets mkGen
        [stdCatHeaders, ["idz", "Food", "abc", "Monthly"]] [stdExpHeaders]
      = none := by
  refine ⟨?_, ?_, ?_, ?_, rfl⟩
  · intro r h
    simp [budgetCoerce?, h]
  · intro r h
    simp [budgetCoerce?, h]
  · intro r b h
    simp only [budgetCoerce?, h]
    rw [if_neg (toString_int_ne_empty b), pythonIntFloat_toString_int]
  · intro gen st r hc hb
    simp [loadCatsStep, hc, hb]

/-- C8 witness: the record with budget cell `"500"` (the rendering of the
integer 500) loads with budget exactly 500. -/
theorem budget_coercion_spec_witness :
    budgetCoerce? (zipRecord stdCatHeaders ["id1", "Food", "500", "Monthly"])
      = some 500 :=
  budget_coercion_spec.2.2.1
    (zipRecord stdCatHeaders ["id1", "Food", "500", "Monthly"]) 500 rfl

/-- C4 counterexample: with the non-empty all-whitespace name `" "`, the
appended category row is skipped on reload (its stripped name is blank), so
the loaded mapping is empty and has no entry under `" "` at all. -/
theorem append_category_roundtrip_cex :
    load_data_from_sheets mkGen
        (append_category [stdCatHeaders] "c1" " " 5 "Monthly")
        [stdExpHeaders]
      = some [] ∧ dlookup " " ([] : Cats) = none :=
  ⟨rfl, rfl⟩

/-- C4 (amended): for every name that is non-empty and equal to its
whitespace-stripped form, every budget, and every non-empty type, appending
a category row and then running the Domain Loader (when it yields a
mapping) produces an entry under that name whose id is exactly the
generated (non-empty) one and whose budget and type equal the creation
arguments. -/
theorem append_category_roundtrip (gen : Nat → String) (rest : List Row)
    (expVals : Table) (cid name : String) (budget : Int) (btype : String)
    (m : Cats) (hcid : cid ≠ "") (hname : strField name = name)
    (hne : name ≠ "") (hbt : btype ≠ "")
    (hload : load_data_from_sheets gen
        (append_category (stdCatHeaders :: rest) cid name budget btype)
        expVals = some m) :
    ∃ c, dlookup name m = some c ∧ c.id = cid ∧ c.id ≠ "" ∧
      c.budget = budget ∧ c.type = btype := by
  have hrow : append_category (stdCatHeaders :: rest) cid name budget btype
      = stdCatHeaders :: (rest ++ [[cid, name, toString budget, btype]]) := by
    simp [append_category]
  have hrecs : get_all_records
      (stdCatHeaders :: (rest ++ [[cid, name, toString budget, btype]]))
      = rest.map (zipRecord stdCatHeaders)
        ++ [zipRecord stdCatHeaders [cid, name, toString budget, btype]] := by
    simp [get_all_records]
  rw [hrow] at hload
  unfold load_data_from_sheets at hload
  rw [hrecs, loadCats_append] at hload
  cases h0 : loadCats gen (rest.map (zipRecord stdCatHeaders)) ([], 0) with
  | none =>
    rw [h0] at hload
    simp at hload
  | some st0 =>
    rw [h0] at hload
    have hkey : catKeyOf (zipRecord stdCatHeaders
        [cid, name, toString budget, btype]) = name := by
      show strField ((recGet (zipRecord stdCatHeaders
          [cid, name, toString budget, btype]) "category").getD "") = name
      have hrg : recGet (zipRecord stdCatHeaders
          [cid, name, toString budget, btype]) "category" = some name := rfl
      rw [hrg]
      exact hname
    have hid : recGet (zipRecord stdCatHeaders
        [cid, name, toString budget, btype]) "id" = some cid := rfl
    have hbudf : recGet (zipRecord stdCatHeaders
        [cid, name, toString budget, btype]) "budget"
        = some (toString budget) := rfl
    have htyf : recGet (zipRecord stdCatHeaders
        [cid, name, toString budget, btype]) "type" = some btype := rfl
    have hstep : loadCatsStep gen st0 (zipRecord stdCatHeaders
        [cid, name, toString budget, btype])
        = some (dictInsert name ⟨cid, budget, btype, []⟩ st0.1, st0.2) := by
      simp [loadCatsStep, hkey, hne, idOrFresh, hid, hcid, budgetCoerce?,
        hbudf, toString_int_ne_empty budget, pythonIntFloat_toString_int,
        typeOf, htyf, orElseStr, hbt]
    rw [show (some st0).bind (fun st1 => loadCatsStep gen st1
        (zipRecord stdCatHeaders [cid, name, toString budget, btype]))
      = loadCatsStep gen st0 (zipRecord stdCatHeaders
        [cid, name, toString budget, btype]) from rfl, hstep] at hload
    have hm : (loadExps gen (get_all_records expVals)
        (dictInsert name ⟨cid, budget, btype, []⟩ st0.1, st0.2)).1 = m := by
      exact Option.some.inj hload
    have hlk : dlookup name
        (dictInsert name ⟨cid, budget, btype, []⟩ st0.1)
        = some ⟨cid, budget, btype, []⟩ := by
      rw [dlookup_dictInsert, if_pos rfl]
    obtain ⟨c2, hc2, hi, hb, ht⟩ := loadExps_preserves gen
      (get_all_records expVals)
      (dictInsert name ⟨cid, budget, btype, []⟩ st0.1, st0.2)
      name ⟨cid, budget, btype, []⟩ hlk
    rw [hm] at hc2
    refine ⟨c2, hc2, hi, ?_, hb, ht⟩
    rw [hi]
    exact hcid

/-- C4 witness: appending `("c1d2", "Food", 500, "Monthly")` to an empty
store and reloading yields the entry `"Food"` with exactly that id, budget
and type. -/
theorem append_category_roundtrip_witness :
    ∃ c, dlookup "Food" [("Food", ⟨"c1d2", 500, "Monthly", []⟩)] = some c ∧
      c.id = "c1d2" ∧ c.id ≠ "" ∧ c.budget = 500 ∧ c.type = "Monthly" :=
  append_category_roundtrip mkGen [] [stdExpHeaders] "c1d2" "Food" 500
    "Monthly" [("Food", ⟨"c1d2", 500, "Monthly", []⟩)]
    (by decide) (by decide) (by decide) (by decide) rfl

/-- C5: loading the one-row categories table `("id1","Food",500,"Monthly")`
together with the one-row expenses table
`("e1","Food",100,"lunch","2024-01-01 12:00:00")` yields exactly one
category `"Food"` with budget 500 and type `"Monthly"` containing exactly
the one expense of amount 100, note `"lunch"` and that date. -/
theorem load_concrete_example (gen : Nat → String) :
    load_data_from_sheets gen
      [stdCatHeaders, ["id1", "Food", "500", "Monthly"]]
      [stdExpHeaders, ["e1", "Food", "100", "lunch", "2024-01-01 12:00:00"]]
      = some [("Food", ⟨"id1", 500, "Monthly",
          [⟨"e1", 100, "lunch", "2024-01-01 12:00:00"⟩]⟩)] := rfl

end BudgetApp
